import Mathlib

/-!
# Container groups of `merry`: pattern matcher, group resolver, enable / disable

A shallow embedding of `src/container_groups.go` and `src/manage-groups.go`.

* A Go `string` is modelled by its sequence of runes (`Str`); the strings handled
  here are service names and YAML scalars, which are valid UTF-8, so byte-wise
  prefix / suffix / substring tests and rune-wise ones agree, and slicing off a
  leading or trailing `*` (one byte, one rune) is the same operation in both views.
* `strings.HasPrefix`, `strings.HasSuffix`, `strings.Index`, `strings.Contains`
  and `strings.ToLower` are library functions; they are written out below after
  their Go definitions.  The Unicode case table used by `unicode.ToLower` for
  runes above `0x7F` is not part of the repository and is taken as a parameter.
* A Go `map[string]bool` in which only `true` is ever stored is modelled by the
  list of its keys (`NameSet`), kept without repetition.
-/

namespace Merry

/-- A Go string, as its sequence of runes. -/
abbrev Str := List Char

/-! ## The `strings` functions used by the matcher -/

/-- Go slice expression `s[lo:hi]` (the callers below keep `lo ≤ hi ≤ len(s)`). -/
def slice (s : Str) (lo hi : Nat) : Str := (s.take hi).drop lo

/-- `strings.HasPrefix`: `len(s) >= len(prefix) && s[:len(prefix)] == prefix`. -/
def HasPrefix (s pfx : Str) : Bool :=
  decide (s.length ≥ pfx.length) && (slice s 0 pfx.length == pfx)

/-- `strings.HasSuffix`: `len(s) >= len(suffix) && s[len(s)-len(suffix):] == suffix`. -/
def HasSuffix (s suffix : Str) : Bool :=
  decide (s.length ≥ suffix.length) && (slice s (s.length - suffix.length) s.length == suffix)

/-- Search loop of `strings.Index`: the first position `i + k` at which `substr`
starts in the remaining text, or `-1`. -/
def indexFrom (substr : Str) : Str → Nat → Int
  | [], i => if substr = [] then (i : Int) else -1
  | c :: s, i => if HasPrefix (c :: s) substr then (i : Int) else indexFrom substr s (i + 1)

/-- `strings.Index`: index of the first instance of `substr` in `s`, or `-1`. -/
def Index (s substr : Str) : Int := indexFrom substr s 0

/-- `strings.Contains`: `Index(s, substr) >= 0`. -/
def Contains (s substr : Str) : Bool := decide (Index s substr ≥ 0)

/-- `unicode.ToLower`: ASCII letters are shifted by `'a' - 'A'`, other ASCII runes
are unchanged, and runes above `unicode.MaxASCII` go through the lower-case table. -/
def toLowerRune (caseTable : Char → Char) (r : Char) : Char :=
  if r.toNat ≤ 0x7F then
    if 'A'.toNat ≤ r.toNat ∧ r.toNat ≤ 'Z'.toNat then Char.ofNat (r.toNat + ('a'.toNat - 'A'.toNat))
    else r
  else caseTable r

/-- `strings.ToLower`: every rune mapped by `unicode.ToLower`. -/
def ToLower (caseTable : Char → Char) (s : Str) : Str := s.map (toLowerRune caseTable)

/-! ## `matchPattern` (container_groups.go, lines 106-131) -/

/-- The wildcard matcher of `container_groups.go`. -/
def matchPattern (text pattern : Str) : Bool :=
  if pattern = "*".toList then
    true
  else if HasPrefix pattern "*".toList && HasSuffix pattern "*".toList then
    -- *text* - contains
    let substr := slice pattern 1 (pattern.length - 1)
    Contains text substr
  else if HasPrefix pattern "*".toList then
    -- *text - ends with
    let suffix := slice pattern 1 pattern.length
    HasSuffix text suffix
  else if HasSuffix pattern "*".toList then
    -- text* - starts with
    let pfx := slice pattern 0 (pattern.length - 1)
    HasPrefix text pfx
  else
    -- Exact match
    text == pattern

/-- The five rules of the pattern matcher as the specification words them, in
precedence order; "begins / ends with `*`" are read off the first and last
character, "without its first / last character" are `tail` / `dropLast`. -/
def matchPatternRules (text pattern : Str) : Prop :=
  if pattern = ['*'] then True
  else if pattern.head? = some '*' ∧ pattern.getLast? = some '*' then
    pattern.tail.dropLast <:+: text
  else if pattern.head? = some '*' then pattern.tail <:+ text
  else if pattern.getLast? = some '*' then pattern.dropLast <+: text
  else text = pattern

instance (text pattern : Str) : Decidable (matchPatternRules text pattern) := by
  unfold matchPatternRules
  infer_instance

/-! ## The data model (container_groups.go, lines 12-23) -/

/-- `ContainerGroup`: one group of the configuration. -/
structure ContainerGroup where
  Description : Str
  Patterns : List Str
  Includes : List Str
  Excludes : List Str
deriving DecidableEq

/-- `ContainerGroups`: the whole configuration; the Go map from group name to
group is kept as an association list read by key lookup. -/
structure ContainerGroups where
  Groups : List (Str × ContainerGroup)

/-- Keys of a Go `map[string]bool` all of whose stored values are `true`. -/
abbrev NameSet := List Str

/-- `m[k] = true`. -/
def NameSet.set (m : NameSet) (k : Str) : NameSet := if k ∈ m then m else m ++ [k]

/-- `delete(m, k)`. -/
def NameSet.delete (m : NameSet) (k : Str) : NameSet := m.filter (fun x => x != k)

/-- The keys visited by `for k := range m`.  Go leaves the order unspecified; the
model lists them in insertion order, and nothing proved below depends on it. -/
def NameSet.keys (m : NameSet) : List Str := m

/-! ## `matchContainersForGroup` (container_groups.go, lines 73-104) -/

/-- The group resolver. -/
def matchContainersForGroup (caseTable : Char → Char) (group : ContainerGroup)
    (runningContainers : List Str) : List Str :=
  let matched : NameSet := []
  let matched := runningContainers.foldl (fun matched container =>
    group.Patterns.foldl (fun matched pattern =>
      if matchPattern (ToLower caseTable container) (ToLower caseTable pattern) then
        matched.set container
      else matched) matched) matched
  -- Add explicit includes
  let matched := group.Includes.foldl (fun matched include' =>
    runningContainers.foldl (fun matched container =>
      if container == include' then matched.set container else matched) matched) matched
  -- Remove excludes
  let matched := group.Excludes.foldl (fun matched exclude => matched.delete exclude) matched
  matched.keys

/-! ## `Enable` and `Disable` (manage-groups.go) -/

/-- An operand of a `fmt.Printf` call. -/
inductive FmtArg where
  | str (s : Str)
  | int (n : Nat)
deriving DecidableEq

/-- An error value: built by `fmt.Errorf` in `manage-groups.go` (format and the
messages of its `%v` operands), or handed back unchanged from a collaborator. -/
inductive GoError where
  | Errorf (format : String) (operands : List String)
  | collaborator (message : String)
deriving DecidableEq

/-- What an operation does that is visible outside it, in order: calls to the
loader, the two inventory queries and `defaultComposePath`, lines printed, and
`runDockerCompose(composePath, args...).Run()`. -/
inductive Event where
  | loadContainerGroups
  | getAllContainers
  | getRunningContainers
  | defaultComposePath
  | Printf (format : String) (operands : List FmtArg)
  | Println (text : String)
  | Run (composePath : Str) (args : List Str)
deriving DecidableEq

/-- Outcomes of the calls that leave the process.  `loadContainerGroups` reads and
parses the configuration file, the two queries run the orchestrator; here each
is the result the call gives (`error` carries the error message).
`defaultComposePath` and `runDockerCompose` are not in the source files. -/
structure Env where
  loadContainerGroups : Except String ContainerGroups
  getAllContainers : Except String (List Str)
  getRunningContainers : Except String (List Str)
  defaultComposePath : Except String Str
  Run : Str → List Str → Except String Unit

/-- `strings.Join`. -/
def Join (elems : List Str) (sep : Str) : Str := sep.intercalate elems

/-- The loop over the requested names, the same in `Disable` (lines 25-36) and
`Enable` (lines 89-100): warn about a name that is not a key, otherwise add the
group's matches to the set. -/
def collectContainers (caseTable : Char → Char) (groups : ContainerGroups)
    (inventory : List Str) (groupNames : List Str) (out : List Event) (containers : NameSet) :
    List Event × NameSet :=
  groupNames.foldl (fun acc groupName =>
    match groups.Groups.lookup groupName with
    | none =>
      (acc.1 ++ [Event.Printf "Warning: Group '%s' not found\n" [FmtArg.str groupName]], acc.2)
    | some group =>
      let matched := matchContainersForGroup caseTable group inventory
      (acc.1, matched.foldl (fun containers container => containers.set container) acc.2))
    (out, containers)

/-- `Disable`: the events it produces and the error it returns (`none` is `nil`). -/
def Disable (caseTable : Char → Char) (env : Env) (groupNames : List Str) :
    List Event × Option GoError :=
  if groupNames.length = 0 then
    ([], some (GoError.Errorf "no groups specified" []))
  else
  let out := [Event.loadContainerGroups]
  match env.loadContainerGroups with
  | .error err => (out, some (GoError.Errorf "failed to load container groups: %v" [err]))
  | .ok groups =>
  let out := out ++ [Event.getRunningContainers]
  match env.getRunningContainers with
  | .error err => (out, some (GoError.Errorf "failed to get running containers: %v" [err]))
  | .ok runningContainers =>
  let (out, containersToStop) := collectContainers caseTable groups runningContainers groupNames out []
  if containersToStop.length = 0 then
    (out ++ [Event.Println "No containers found matching the specified groups"], none)
  else
  let containerList := containersToStop.keys
  let out := out ++ [Event.Printf "Stopping containers: %s\n" [FmtArg.str (Join containerList ", ".toList)]]
  let out := out ++ [Event.defaultComposePath]
  match env.defaultComposePath with
  | .error err => (out, some (GoError.collaborator err))
  | .ok composePath =>
  let args := ["stop".toList] ++ containerList
  let out := out ++ [Event.Run composePath args]
  match env.Run composePath args with
  | .error err => (out, some (GoError.Errorf "failed to stop containers: %v" [err]))
  | .ok _ =>
    (out ++ [Event.Printf "Successfully stopped %d containers from groups: %s\n"
      [FmtArg.int containerList.length, FmtArg.str (Join groupNames ", ".toList)]], none)

/-- `Enable`: the events it produces and the error it returns (`none` is `nil`). -/
def Enable (caseTable : Char → Char) (env : Env) (groupNames : List Str) :
    List Event × Option GoError :=
  if groupNames.length = 0 then
    ([], some (GoError.Errorf "no groups specified" []))
  else
  let out := [Event.loadContainerGroups]
  match env.loadContainerGroups with
  | .error err => (out, some (GoError.Errorf "failed to load container groups: %v" [err]))
  | .ok groups =>
  let out := out ++ [Event.getAllContainers]
  match env.getAllContainers with
  | .error err => (out, some (GoError.Errorf "failed to get containers: %v" [err]))
  | .ok allContainers =>
  let (out, containersToStart) := collectContainers caseTable groups allContainers groupNames out []
  if containersToStart.length = 0 then
    (out ++ [Event.Println "No containers found matching the specified groups"], none)
  else
  let containerList := containersToStart.keys
  let out := out ++ [Event.Printf "Starting containers: %s\n" [FmtArg.str (Join containerList ", ".toList)]]
  let out := out ++ [Event.defaultComposePath]
  match env.defaultComposePath with
  | .error err => (out, some (GoError.collaborator err))
  | .ok composePath =>
  let args := ["start".toList] ++ containerList
  let out := out ++ [Event.Run composePath args]
  match env.Run composePath args with
  | .error err => (out, some (GoError.Errorf "failed to start containers: %v" [err]))
  | .ok _ =>
    (out ++ [Event.Printf "Successfully started %d containers from groups: %s\n"
      [FmtArg.int containerList.length, FmtArg.str (Join groupNames ", ".toList)]], none)

/-! ## Reading a trace -/

/-- The group name of a "group not found" warning line, if the event is one. -/
def Event.warnedGroup (e : Event) : Option Str :=
  match e with
  | Event.Printf format [FmtArg.str groupName] =>
    if format = "Warning: Group '%s' not found\n" then some groupName else none
  | _ => none

/-- The compose path and arguments of an orchestrator request, if the event is one. -/
def Event.request (e : Event) : Option (Str × List Str) :=
  match e with
  | Event.Run composePath args => some (composePath, args)
  | _ => none

/-- The group names warned about, in order. -/
def warnedGroups (trace : List Event) : List Str := trace.filterMap Event.warnedGroup

/-- The orchestrator requests issued, in order. -/
def requests (trace : List Event) : List (Str × List Str) := trace.filterMap Event.request

/-- The union of the resolved sets of the requested names that are keys of the
configuration: `n` is in the resolved set of some such group. -/
def inRequestedUnion (caseTable : Char → Char) (groups : ContainerGroups)
    (inventory : List Str) (groupNames : List Str) (n : Str) : Prop :=
  ∃ g ∈ groupNames, ∃ group, groups.Groups.lookup g = some group ∧
    n ∈ matchContainersForGroup caseTable group inventory

/-- The usage error of `Enable` and `Disable`. -/
def usageError : GoError := GoError.Errorf "no groups specified" []

/-- What a bulk operation with verb `verb` (`start` or `stop`) owes its caller once
the configuration `groups` and the inventory are loaded, read off the outcome `r`
(trace and returned error):
* the warnings are exactly the requested names that are not keys, one per request;
* there is a list `containerList`, free of repetition, whose members are exactly
  the union of the resolved sets of the requested names that are keys, such that
  at most one orchestrator request is issued and it is `verb` followed by that list;
* when the union is not empty and the compose path resolves, that request is
  issued, and the operation returns `nil` if the request succeeds. -/
def BulkOutcome (caseTable : Char → Char) (env : Env) (groups : ContainerGroups)
    (inventory : List Str) (groupNames : List Str) (verb : Str)
    (r : List Event × Option GoError) : Prop :=
  warnedGroups r.1 = groupNames.filter (fun g => (groups.Groups.lookup g).isNone) ∧
  ∃ containerList : List Str, containerList.Nodup ∧
    (∀ n, n ∈ containerList ↔ inRequestedUnion caseTable groups inventory groupNames n) ∧
    (requests r.1 = [] ∨ ∃ composePath, requests r.1 = [(composePath, verb :: containerList)]) ∧
    (∀ composePath, env.defaultComposePath = Except.ok composePath → containerList ≠ [] →
      requests r.1 = [(composePath, verb :: containerList)] ∧
      (env.Run composePath (verb :: containerList) = Except.ok () → r.2 = none))

/-! ## A small installation used to evaluate the operations -/

/-- One group, `web`, selecting the services whose name starts with `web`. -/
def sampleGroups : ContainerGroups :=
  { Groups := [("web".toList,
      { Description := "web tier".toList, Patterns := ["web*".toList], Includes := [],
        Excludes := [] })] }

/-- Three declared services, of which `web1` runs; every call succeeds. -/
def sampleEnv : Env :=
  { loadContainerGroups := Except.ok sampleGroups
    getAllContainers := Except.ok ["web1".toList, "web2".toList, "redis".toList]
    getRunningContainers := Except.ok ["web1".toList]
    defaultComposePath := Except.ok "docker-compose.yml".toList
    Run := fun _ _ => Except.ok () }

/-! ## Library facts -/

theorem slice_zero (s : Str) (n : Nat) : slice s 0 n = s.take n := by
  simp [slice]

theorem slice_to_length (s : Str) (n : Nat) : slice s n s.length = s.drop n := by
  simp [slice]

theorem HasPrefix_iff (s p : Str) : HasPrefix s p = true ↔ p <+: s := by
  simp only [HasPrefix, slice_zero, Bool.and_eq_true, decide_eq_true_eq, beq_iff_eq]
  constructor
  · rintro ⟨_, h⟩
    exact h ▸ List.take_prefix _ _
  · intro h
    exact ⟨h.length_le, List.prefix_iff_eq_take.mp h |>.symm⟩

theorem HasSuffix_iff (s p : Str) : HasSuffix s p = true ↔ p <:+ s := by
  simp only [HasSuffix, slice_to_length, Bool.and_eq_true, decide_eq_true_eq, beq_iff_eq]
  constructor
  · rintro ⟨_, h⟩
    exact h ▸ List.drop_suffix _ _
  · intro h
    exact ⟨h.length_le, List.suffix_iff_eq_drop.mp h |>.symm⟩

theorem indexFrom_nonneg_iff (sub : Str) (s : Str) (i : Nat) :
    0 ≤ indexFrom sub s i ↔ sub <:+: s := by
  induction s generalizing i with
  | nil =>
    by_cases h : sub = []
    · simp [indexFrom, h]
    · simp [indexFrom, h]
  | cons c s ih =>
    unfold indexFrom
    by_cases h : HasPrefix (c :: s) sub = true
    · simp only [h, if_true]
      have := (HasPrefix_iff _ _).mp h
      simp [this.isInfix]
    · simp only [h]
      rw [if_neg (by simp), ih]
      have hp : ¬ sub <+: c :: s := fun hp => h ((HasPrefix_iff _ _).mpr hp)
      rw [List.infix_cons_iff]
      tauto

theorem Contains_iff (s sub : Str) : Contains s sub = true ↔ sub <:+: s := by
  simp [Contains, Index, indexFrom_nonneg_iff]

/-! ## The matcher against its rules -/

theorem HasPrefix_star (p : Str) : HasPrefix p "*".toList = true ↔ p.head? = some '*' := by
  rw [HasPrefix_iff]
  cases p with
  | nil => simp
  | cons a t => simp [List.cons_prefix_cons, eq_comm]

theorem HasSuffix_star (p : Str) : HasSuffix p "*".toList = true ↔ p.getLast? = some '*' := by
  rw [HasSuffix_iff]
  constructor
  · rintro ⟨t, rfl⟩
    simp
  · intro h
    obtain ⟨t, rfl⟩ : ∃ t, p = t ++ ['*'] := by
      rcases List.eq_nil_or_concat p with rfl | ⟨t, b, rfl⟩
      · simp at h
      · simp at h
        exact ⟨t, by simp [h]⟩
    exact List.suffix_append _ _

theorem slice_one_length (p : Str) : slice p 1 p.length = p.tail := by
  simp [slice]

theorem slice_zero_pred (p : Str) : slice p 0 (p.length - 1) = p.dropLast := by
  simp [slice, List.dropLast_eq_take]

theorem slice_one_pred (p : Str) : slice p 1 (p.length - 1) = p.tail.dropLast := by
  simp [slice, List.dropLast_eq_take, List.drop_take]

/-- Where `matchPattern` slices its pattern the bounds are in range, so the Go
slice expressions cannot fail: with a pattern other than `"*"` that begins and
ends with `*` the length is at least 2. -/
theorem slice_bounds (p : Str) (h1 : p ≠ "*".toList)
    (h2 : HasPrefix p "*".toList = true) (h3 : HasSuffix p "*".toList = true) :
    1 ≤ p.length - 1 ∧ p.length - 1 ≤ p.length := by
  rw [HasPrefix_star] at h2
  rw [HasSuffix_star] at h3
  match p, h1, h2, h3 with
  | [], _, h2, _ => simp at h2
  | [a], h1, h2, _ =>
    simp at h2
    simp [h2] at h1
  | _ :: _ :: _, _, _, _ => simp

theorem matchPattern_iff_rules (text pattern : Str) :
    matchPattern text pattern = true ↔ matchPatternRules text pattern := by
  unfold matchPattern matchPatternRules
  have e : "*".toList = ['*'] := rfl
  by_cases h0 : pattern = ['*']
  · simp [h0, e]
  · by_cases hp : pattern.head? = some '*' <;> by_cases hs : pattern.getLast? = some '*'
    · have hp2 := (HasPrefix_star pattern).mpr hp
      have hs2 := (HasSuffix_star pattern).mpr hs
      simp only [e] at hp2 hs2
      simp only [e, h0, hp2, hs2, hp, hs, if_false, if_true, Bool.and_self, and_self,
        slice_one_pred, Contains_iff]
    · have hp2 := (HasPrefix_star pattern).mpr hp
      have hs2 : HasSuffix pattern ['*'] = false := by
        rw [Bool.eq_false_iff]; exact fun h => hs ((HasSuffix_star pattern).mp h)
      simp only [e] at hp2
      simp [e, h0, hp2, hs2, hp, hs, slice_one_length, HasSuffix_iff]
    · have hp2 : HasPrefix pattern ['*'] = false := by
        rw [Bool.eq_false_iff]; exact fun h => hp ((HasPrefix_star pattern).mp h)
      have hs2 := (HasSuffix_star pattern).mpr hs
      simp only [e] at hs2
      simp [e, h0, hp2, hs2, hp, hs, slice_zero_pred, HasPrefix_iff]
    · have hp2 : HasPrefix pattern ['*'] = false := by
        rw [Bool.eq_false_iff]; exact fun h => hp ((HasPrefix_star pattern).mp h)
      have hs2 : HasSuffix pattern ['*'] = false := by
        rw [Bool.eq_false_iff]; exact fun h => hs ((HasSuffix_star pattern).mp h)
      simp [e, h0, hp2, hs2, hp, hs]

/-- C7: `matchPattern` is the five-rule reference evaluated in precedence order
(`"*"` matches everything, the empty text included; `*x*` is containment of `x`;
`*x` is "ends with `x`"; `x*` is "starts with `x`"; anything else is equality),
and a pattern that neither begins nor ends with `*` matches a text exactly when
the text equals it. -/
theorem matchPattern_eq_rules (text pattern : Str) :
    matchPattern text pattern = decide (matchPatternRules text pattern) ∧
    matchPattern text "*".toList = true ∧
    (pattern.head? ≠ some '*' → pattern.getLast? ≠ some '*' →
      (matchPattern text pattern = true ↔ text = pattern)) := by
  refine ⟨?_, rfl, fun hp hs => ?_⟩
  · rw [Bool.eq_iff_iff, matchPattern_iff_rules]
    simp
  · rw [matchPattern_iff_rules]
    unfold matchPatternRules
    have h0 : pattern ≠ ['*'] := fun h => hp (by simp [h])
    simp [h0, hp, hs]

/-- C7 at the interior-wildcard pattern `"ap*i"`: it matches itself and not `"api"`. -/
theorem matchPattern_eq_rules_witness :
    (matchPattern "ap*i".toList "ap*i".toList = true ↔ "ap*i".toList = "ap*i".toList) ∧
    (matchPattern "api".toList "ap*i".toList = true ↔ "api".toList = "ap*i".toList) :=
  ⟨(matchPattern_eq_rules "ap*i".toList "ap*i".toList).2.2 (by decide) (by decide),
   (matchPattern_eq_rules "api".toList "ap*i".toList).2.2 (by decide) (by decide)⟩

/-! ## Lower-casing and the three wildcard forms -/

theorem toLowerRune_star (caseTable : Char → Char) : toLowerRune caseTable '*' = '*' := by
  simp [toLowerRune]

/-- Lower-casing neither creates nor removes a `*`, as long as the case table
maps no rune above ASCII to `*` (the Unicode table maps letters to letters). -/
theorem toLowerRune_eq_star (caseTable : Char → Char)
    (htable : ∀ r : Char, 0x7F < r.toNat → caseTable r ≠ '*') (r : Char) :
    toLowerRune caseTable r = '*' ↔ r = '*' := by
  constructor
  · intro h
    unfold toLowerRune at h
    by_cases h1 : r.toNat ≤ 0x7F
    · rw [if_pos h1] at h
      by_cases h2 : 'A'.toNat ≤ r.toNat ∧ r.toNat ≤ 'Z'.toNat
      · rw [if_pos h2] at h
        exfalso
        obtain ⟨ha, hz⟩ := h2
        have ha2 : 65 ≤ r.toNat := ha
        have hz2 : r.toNat ≤ 90 := hz
        generalize r.toNat = n at h ha2 hz2
        interval_cases n <;> exact absurd h (by decide)
      · rw [if_neg h2] at h
        exact h
    · rw [if_neg h1] at h
      exact absurd h (htable r (by omega))
  · rintro rfl
    exact toLowerRune_star caseTable

theorem head_ToLower_star (caseTable : Char → Char)
    (htable : ∀ r : Char, 0x7F < r.toNat → caseTable r ≠ '*') (p : Str) :
    (ToLower caseTable p).head? = some '*' ↔ p.head? = some '*' := by
  cases p with
  | nil => simp [ToLower]
  | cons a t => simp [ToLower, toLowerRune_eq_star caseTable htable]

theorem getLast_ToLower_star (caseTable : Char → Char)
    (htable : ∀ r : Char, 0x7F < r.toNat → caseTable r ≠ '*') (p : Str) :
    (ToLower caseTable p).getLast? = some '*' ↔ p.getLast? = some '*' := by
  rcases List.eq_nil_or_concat p with rfl | ⟨t, b, rfl⟩
  · simp [ToLower]
  · simp [ToLower, toLowerRune_eq_star caseTable htable]

theorem ToLower_append (caseTable : Char → Char) (a b : Str) :
    ToLower caseTable (a ++ b) = ToLower caseTable a ++ ToLower caseTable b := by
  simp [ToLower]

theorem ToLower_star (caseTable : Char → Char) : ToLower caseTable "*".toList = ['*'] := by
  show [toLowerRune caseTable '*'] = ['*']
  rw [toLowerRune_star]

theorem getLast_cons_concat (a b : Char) (t : Str) : (a :: (t ++ [b])).getLast? = some b := by
  show ((a :: t) ++ [b]).getLast? = some b
  exact List.getLast?_concat _

theorem dropLast_cons_concat (a b : Char) (t : Str) : (a :: (t ++ [b])).dropLast = a :: t := by
  show ((a :: t) ++ [b]).dropLast = a :: t
  exact List.dropLast_concat

theorem rules_trailing_star (text q : Str) :
    matchPatternRules text (q ++ ['*']) ↔
      (q.head? ≠ some '*' ∧ q <+: text) ∨ (q.head? = some '*' ∧ q.tail <:+: text) := by
  unfold matchPatternRules
  cases q with
  | nil => simp
  | cons a t =>
    by_cases ha : a = '*'
    · subst ha
      simp [getLast_cons_concat, dropLast_cons_concat]
    · have : ¬ '*' = a := fun h => ha h.symm
      simp [ha, this, getLast_cons_concat, dropLast_cons_concat]

theorem rules_leading_star (text q : Str) :
    matchPatternRules text ('*' :: q) ↔
      (q.getLast? ≠ some '*' ∧ q <:+ text) ∨ (q.getLast? = some '*' ∧ q.dropLast <:+: text) := by
  unfold matchPatternRules
  rcases List.eq_nil_or_concat q with rfl | ⟨t, b, rfl⟩
  · simp
  · by_cases hb : b = '*'
    · subst hb
      simp [getLast_cons_concat, dropLast_cons_concat]
    · simp [hb, getLast_cons_concat]

theorem rules_both_stars (text q : Str) :
    matchPatternRules text ('*' :: (q ++ ['*'])) ↔ q <:+: text := by
  unfold matchPatternRules
  simp [getLast_cons_concat, dropLast_cons_concat]

/-- The resolver's match of `c` against `p+"*"`, whatever `p` is: a prefix test
when the lower-cased `p` does not begin with `*`, and otherwise containment of
the rest of `p` (the pattern then begins and ends with `*`). -/
theorem match_trailing_star (caseTable : Char → Char) (c p : Str) :
    matchPattern (ToLower caseTable c) (ToLower caseTable (p ++ "*".toList)) = true ↔
      ((ToLower caseTable p).head? ≠ some '*' ∧ ToLower caseTable p <+: ToLower caseTable c) ∨
      ((ToLower caseTable p).head? = some '*' ∧
        (ToLower caseTable p).tail <:+: ToLower caseTable c) := by
  rw [ToLower_append, ToLower_star, matchPattern_iff_rules, rules_trailing_star]

/-- The resolver's match of `c` against `"*"+s`, whatever `s` is: a suffix test
when the lower-cased `s` does not end with `*`, and otherwise containment of `s`
without its last character. -/
theorem match_leading_star (caseTable : Char → Char) (c s : Str) :
    matchPattern (ToLower caseTable c) (ToLower caseTable ("*".toList ++ s)) = true ↔
      ((ToLower caseTable s).getLast? ≠ some '*' ∧ ToLower caseTable s <:+ ToLower caseTable c) ∨
      ((ToLower caseTable s).getLast? = some '*' ∧
        (ToLower caseTable s).dropLast <:+: ToLower caseTable c) := by
  rw [ToLower_append, ToLower_star, matchPattern_iff_rules]
  exact rules_leading_star _ _

/-- C4, as the code has it: for every candidate `c` and every `p` whose lower-cased
form does not begin with `*`, matching `c` against `p+"*"` the way the resolver
does is true exactly when `ToLower(c)` has `ToLower(p)` as a prefix. -/
theorem prefix_pattern_iff (caseTable : Char → Char) (c p : Str)
    (hp : (ToLower caseTable p).head? ≠ some '*') :
    matchPattern (ToLower caseTable c) (ToLower caseTable (p ++ "*".toList)) = true ↔
      ToLower caseTable p <+: ToLower caseTable c := by
  rw [match_trailing_star]
  simp [hp]

/-- C4 at candidate `"API-Worker"` and `p = "api"`. -/
theorem prefix_pattern_iff_witness :
    (ToLower id "api".toList).head? ≠ some '*' ∧
    (matchPattern (ToLower id "API-Worker".toList) (ToLower id ("api".toList ++ "*".toList)) = true ↔
      ToLower id "api".toList <+: ToLower id "API-Worker".toList) :=
  ⟨by decide, prefix_pattern_iff id "API-Worker".toList "api".toList (by decide)⟩

/-- C4 as stated fails when `p` begins with `*`: with `p = "*"` the pattern is
`"**"`, which matches `"db"` although `"db"` does not start with `"*"`. -/
theorem prefix_pattern_counterexample :
    ¬ (matchPattern (ToLower id "db".toList) (ToLower id ("*".toList ++ "*".toList)) = true ↔
      ToLower id "*".toList <+: ToLower id "db".toList) := by
  decide

/-- C5, as the code has it: for every candidate `c` and every `s` whose lower-cased
form does not end with `*`, matching `c` against `"*"+s` the way the resolver
does is true exactly when `ToLower(c)` has `ToLower(s)` as a suffix. -/
theorem suffix_pattern_iff (caseTable : Char → Char) (c s : Str)
    (hs : (ToLower caseTable s).getLast? ≠ some '*') :
    matchPattern (ToLower caseTable c) (ToLower caseTable ("*".toList ++ s)) = true ↔
      ToLower caseTable s <:+ ToLower caseTable c := by
  rw [match_leading_star]
  simp [hs]

/-- C5 at candidate `"API-Worker"` and `s = "WORKER"`. -/
theorem suffix_pattern_iff_witness :
    (ToLower id "WORKER".toList).getLast? ≠ some '*' ∧
    (matchPattern (ToLower id "API-Worker".toList) (ToLower id ("*".toList ++ "WORKER".toList)) = true ↔
      ToLower id "WORKER".toList <:+ ToLower id "API-Worker".toList) :=
  ⟨by decide, suffix_pattern_iff id "API-Worker".toList "WORKER".toList (by decide)⟩

/-- C5 as stated fails when `s` ends with `*`: with `s = "b*"` the pattern is
`"*b*"`, which matches `"abc"` although `"abc"` does not end with `"b*"`. -/
theorem suffix_pattern_counterexample :
    ¬ (matchPattern (ToLower id "abc".toList) (ToLower id ("*".toList ++ "b*".toList)) = true ↔
      ToLower id "b*".toList <:+ ToLower id "abc".toList) := by
  decide

/-- C6: for every candidate `c` and every `m`, matching `c` against `"*"+m+"*"`
the way the resolver does is true exactly when `ToLower(m)` occurs somewhere in
`ToLower(c)`. -/
theorem contains_pattern_iff (caseTable : Char → Char) (c m : Str) :
    matchPattern (ToLower caseTable c) (ToLower caseTable ("*".toList ++ m ++ "*".toList)) = true ↔
      ToLower caseTable m <:+: ToLower caseTable c := by
  rw [ToLower_append, ToLower_append, ToLower_star, matchPattern_iff_rules]
  exact rules_both_stars _ _

/-! ## The key set -/

theorem NameSet.mem_set (m : NameSet) (k x : Str) : x ∈ m.set k ↔ x ∈ m ∨ x = k := by
  unfold NameSet.set
  by_cases h : k ∈ m
  · simp only [h, if_true]
    constructor
    · exact Or.inl
    · rintro (hx | rfl)
      · exact hx
      · exact h
  · simp [h]

theorem NameSet.nodup_set (m : NameSet) (k : Str) (h : m.Nodup) : (m.set k).Nodup := by
  unfold NameSet.set
  by_cases hk : k ∈ m
  · simpa [hk] using h
  · simp only [hk, if_false]
    rw [List.nodup_append]
    refine ⟨h, List.nodup_singleton k, ?_⟩
    intro a ha hb
    simp at hb
    exact hk (hb ▸ ha)

theorem NameSet.mem_delete (m : NameSet) (k x : Str) : x ∈ m.delete k ↔ x ∈ m ∧ x ≠ k := by
  simp [NameSet.delete]

theorem NameSet.nodup_delete (m : NameSet) (k : Str) (h : m.Nodup) : (m.delete k).Nodup :=
  h.filter _

/-- Membership after a loop each of whose steps only adds keys. -/
theorem mem_foldl_add {β : Type} (F : NameSet → β → NameSet) (Q : β → Str → Prop)
    (hF : ∀ m b x, x ∈ F m b ↔ x ∈ m ∨ Q b x) (l : List β) (m0 : NameSet) (x : Str) :
    x ∈ l.foldl F m0 ↔ x ∈ m0 ∨ ∃ b ∈ l, Q b x := by
  induction l generalizing m0 with
  | nil => simp
  | cons b l ih =>
    rw [List.foldl_cons, ih, hF]
    simp only [List.mem_cons, exists_eq_or_imp]
    tauto

/-- A loop whose steps keep the key list free of repetition keeps it so. -/
theorem nodup_foldl {β : Type} (F : NameSet → β → NameSet)
    (hF : ∀ m b, m.Nodup → (F m b).Nodup) (l : List β) (m0 : NameSet) (h : m0.Nodup) :
    (l.foldl F m0).Nodup := by
  induction l generalizing m0 with
  | nil => exact h
  | cons b l ih => exact ih _ (hF _ _ h)

/-- Membership after a loop that sets the key `k b` for each element passing `t`. -/
theorem mem_foldl_set {β : Type} (t : β → Bool) (k : β → Str) (l : List β) (m0 : NameSet)
    (x : Str) :
    x ∈ l.foldl (fun m b => if t b then m.set (k b) else m) m0 ↔
      x ∈ m0 ∨ ∃ b ∈ l, t b = true ∧ x = k b := by
  apply mem_foldl_add
  intro m b y
  by_cases h : t b = true
  · simp [h, NameSet.mem_set]
  · simp [h]

theorem nodup_foldl_set {β : Type} (t : β → Bool) (k : β → Str) (l : List β) (m0 : NameSet)
    (h : m0.Nodup) : (l.foldl (fun m b => if t b then m.set (k b) else m) m0).Nodup := by
  apply nodup_foldl _ _ _ _ h
  intro m b hm
  by_cases h : t b = true
  · simpa [h] using NameSet.nodup_set m (k b) hm
  · simpa [h] using hm

theorem mem_foldl_delete (l : List Str) (m0 : NameSet) (x : Str) :
    x ∈ l.foldl (fun m e => m.delete e) m0 ↔ x ∈ m0 ∧ x ∉ l := by
  induction l generalizing m0 with
  | nil => simp
  | cons b l ih =>
    rw [List.foldl_cons, ih, NameSet.mem_delete]
    simp only [List.mem_cons, not_or]
    tauto

theorem nodup_foldl_delete (l : List Str) (m0 : NameSet) (h : m0.Nodup) :
    (l.foldl (fun m e => m.delete e) m0).Nodup :=
  nodup_foldl _ (fun m b hm => NameSet.nodup_delete m b hm) l m0 h

/-! ## The resolver -/

/-- Membership in the resolved list, loop by loop. -/
theorem mem_matchContainersForGroup (caseTable : Char → Char) (group : ContainerGroup)
    (inventory : List Str) (n : Str) :
    n ∈ matchContainersForGroup caseTable group inventory ↔
      n ∈ inventory ∧ n ∉ group.Excludes ∧
        ((∃ p ∈ group.Patterns,
            matchPattern (ToLower caseTable n) (ToLower caseTable p) = true) ∨
          n ∈ group.Includes) := by
  unfold matchContainersForGroup NameSet.keys
  simp only []
  rw [mem_foldl_delete]
  rw [mem_foldl_add _ (fun i x => x ∈ inventory ∧ x = i)
    (fun m i x => by
      rw [mem_foldl_set (fun c => c == i) (fun c => c) inventory m x]
      simp only [beq_iff_eq]
      constructor
      · rintro (h | ⟨b, hb, rfl, rfl⟩)
        · exact Or.inl h
        · exact Or.inr ⟨hb, rfl⟩
      · rintro (h | ⟨hx, rfl⟩)
        · exact Or.inl h
        · exact Or.inr ⟨x, hx, rfl, rfl⟩)]
  rw [mem_foldl_add _ (fun c x => x = c ∧ ∃ p ∈ group.Patterns,
      matchPattern (ToLower caseTable c) (ToLower caseTable p) = true)
    (fun m c x => by
      rw [mem_foldl_set (fun p => matchPattern (ToLower caseTable c) (ToLower caseTable p))
        (fun _ => c) group.Patterns m x]
      constructor
      · rintro (h | ⟨p, hp, hm, rfl⟩)
        · exact Or.inl h
        · exact Or.inr ⟨rfl, p, hp, hm⟩
      · rintro (h | ⟨rfl, p, hp, hm⟩)
        · exact Or.inl h
        · exact Or.inr ⟨p, hp, hm, rfl⟩)]
  constructor
  · rintro ⟨(((h | ⟨c, hc, rfl, hp⟩) | ⟨i, hi, hn, rfl⟩)), he⟩
    · simp at h
    · exact ⟨hc, he, Or.inl hp⟩
    · exact ⟨hn, he, Or.inr hi⟩
  · rintro ⟨hn, he, (hp | hi)⟩
    · exact ⟨Or.inl (Or.inr ⟨n, hn, rfl, hp⟩), he⟩
    · exact ⟨Or.inr ⟨n, hi, hn, rfl⟩, he⟩

/-- The resolved list names no container twice. -/
theorem nodup_matchContainersForGroup (caseTable : Char → Char) (group : ContainerGroup)
    (inventory : List Str) : (matchContainersForGroup caseTable group inventory).Nodup := by
  unfold matchContainersForGroup NameSet.keys
  simp only []
  apply nodup_foldl_delete
  apply nodup_foldl
  · intro m i hm
    exact nodup_foldl_set (fun c => c == i) (fun c => c) inventory m hm
  apply nodup_foldl
  · intro m c hm
    exact nodup_foldl_set (fun p => matchPattern (ToLower caseTable c) (ToLower caseTable p))
      (fun _ => c) group.Patterns m hm
  exact List.nodup_nil

/-- C1: a name is in the result of `matchContainersForGroup(group, inventory)`
exactly when it is in the inventory, is not listed in `group.Excludes`, and
either some pattern of the group matches it (both lower-cased) or it equals an
entry of `group.Includes`. -/
theorem resolve_membership (caseTable : Char → Char) (group : ContainerGroup)
    (inventory : List Str) (n : Str) :
    n ∈ matchContainersForGroup caseTable group inventory ↔
      n ∈ inventory ∧ n ∉ group.Excludes ∧
        ((∃ p ∈ group.Patterns,
            matchPattern (ToLower caseTable n) (ToLower caseTable p) = true) ∨
          n ∈ group.Includes) :=
  mem_matchContainersForGroup caseTable group inventory n

/-- C2: resolution is exclude-dominant: a name listed in `group.Excludes` is never
in the result, whatever the inventory, the patterns and the includes are; and
inventory `[api, api-worker, db, cache]` with patterns `[api*]` and excludes
`[api-worker]` resolves to exactly `api`. -/
theorem exclude_dominant (caseTable : Char → Char) :
    (∀ (group : ContainerGroup) (inventory : List Str) (n : Str),
      n ∈ group.Excludes → n ∉ matchContainersForGroup caseTable group inventory) ∧
    matchContainersForGroup caseTable
      { Description := [], Patterns := ["api*".toList], Includes := [],
        Excludes := ["api-worker".toList] }
      ["api".toList, "api-worker".toList, "db".toList, "cache".toList] = ["api".toList] := by
  refine ⟨fun group inventory n hn hmem => ?_, rfl⟩
  exact ((mem_matchContainersForGroup caseTable group inventory n).mp hmem).2.1 hn

/-- C2 at a name that is in the inventory, matched by a pattern, included and
excluded at once. -/
theorem exclude_dominant_witness :
    "api-worker".toList ∉ matchContainersForGroup id
      { Description := [], Patterns := ["api*".toList], Includes := ["api-worker".toList],
        Excludes := ["api-worker".toList] }
      ["api".toList, "api-worker".toList, "db".toList, "cache".toList] :=
  (exclude_dominant id).1 _ _ _ (by decide)

/-- C3: every element of the result of `matchContainersForGroup` is an element of
the inventory it was given; in particular a name listed in `group.Includes` that
is not in the inventory is not in the result. -/
theorem include_restricted (caseTable : Char → Char) (group : ContainerGroup)
    (inventory : List Str) :
    (∀ n, n ∈ matchContainersForGroup caseTable group inventory → n ∈ inventory) ∧
    (∀ n, n ∈ group.Includes → n ∉ inventory →
      n ∉ matchContainersForGroup caseTable group inventory) := by
  refine ⟨fun n hn => ?_, fun n _ hni hn => hni ?_⟩
  · exact ((mem_matchContainersForGroup caseTable group inventory n).mp hn).1
  · exact ((mem_matchContainersForGroup caseTable group inventory n).mp hn).1

/-- C3 at an include that names no container of the inventory. -/
theorem include_restricted_witness :
    "ghost".toList ∉ matchContainersForGroup id
      { Description := [], Patterns := ["web*".toList], Includes := ["ghost".toList],
        Excludes := [] }
      ["web1".toList, "redis".toList] :=
  (include_restricted id _ _).2 _ (by decide) (by decide)

/-! ## The loop over the requested group names -/

theorem collectContainers_nil (caseTable : Char → Char) (groups : ContainerGroups)
    (inventory : List Str) (out : List Event) (cs : NameSet) :
    collectContainers caseTable groups inventory [] out cs = (out, cs) := rfl

theorem collectContainers_cons (caseTable : Char → Char) (groups : ContainerGroups)
    (inventory : List Str) (g : Str) (gs : List Str) (out : List Event) (cs : NameSet) :
    collectContainers caseTable groups inventory (g :: gs) out cs =
      match groups.Groups.lookup g with
      | none => collectContainers caseTable groups inventory gs
          (out ++ [Event.Printf "Warning: Group '%s' not found\n" [FmtArg.str g]]) cs
      | some group => collectContainers caseTable groups inventory gs out
          ((matchContainersForGroup caseTable group inventory).foldl
            (fun containers container => containers.set container) cs) := by
  unfold collectContainers
  rw [List.foldl_cons]
  cases groups.Groups.lookup g <;> rfl

theorem mem_foldl_setAll (l : List Str) (cs : NameSet) (x : Str) :
    x ∈ l.foldl (fun containers container => containers.set container) cs ↔ x ∈ cs ∨ x ∈ l := by
  rw [mem_foldl_add _ (fun c y => y = c) (fun m b y => NameSet.mem_set m b y)]
  simp

theorem nodup_foldl_setAll (l : List Str) (cs : NameSet) (h : cs.Nodup) :
    (l.foldl (fun containers container => containers.set container) cs).Nodup :=
  nodup_foldl _ (fun m b hm => NameSet.nodup_set m b hm) l cs h

/-- The lines printed by the loop: one warning per requested name that is not a
key of the configuration, in request order, and nothing else. -/
theorem collectContainers_out (caseTable : Char → Char) (groups : ContainerGroups)
    (inventory : List Str) (groupNames : List Str) (out : List Event) (cs : NameSet) :
    (collectContainers caseTable groups inventory groupNames out cs).1 =
      out ++ (groupNames.filter (fun g => (groups.Groups.lookup g).isNone)).map
        (fun g => Event.Printf "Warning: Group '%s' not found\n" [FmtArg.str g]) := by
  induction groupNames generalizing out cs with
  | nil => simp [collectContainers_nil]
  | cons g gs ih =>
    rw [collectContainers_cons]
    cases h : groups.Groups.lookup g with
    | none => simp [ih, h]
    | some group => simp [ih, h]

/-- The set built by the loop: what was there, and the union of the resolved
sets of the requested names that are keys. -/
theorem mem_collectContainers (caseTable : Char → Char) (groups : ContainerGroups)
    (inventory : List Str) (groupNames : List Str) (out : List Event) (cs : NameSet) (x : Str) :
    x ∈ (collectContainers caseTable groups inventory groupNames out cs).2 ↔
      x ∈ cs ∨ inRequestedUnion caseTable groups inventory groupNames x := by
  unfold inRequestedUnion
  induction groupNames generalizing out cs with
  | nil => simp [collectContainers_nil]
  | cons g gs ih =>
    rw [collectContainers_cons]
    cases h : groups.Groups.lookup g with
    | none =>
      simp only [ih, List.mem_cons, exists_eq_or_imp, h]
      simp
    | some group =>
      simp only [ih, List.mem_cons, exists_eq_or_imp, h, mem_foldl_setAll]
      simp only [Option.some.injEq, exists_eq_left']
      tauto

theorem nodup_collectContainers (caseTable : Char → Char) (groups : ContainerGroups)
    (inventory : List Str) (groupNames : List Str) (out : List Event) (cs : NameSet)
    (h : cs.Nodup) :
    (collectContainers caseTable groups inventory groupNames out cs).2.Nodup := by
  induction groupNames generalizing out cs with
  | nil => simpa [collectContainers_nil] using h
  | cons g gs ih =>
    rw [collectContainers_cons]
    cases groups.Groups.lookup g with
    | none => exact ih _ _ h
    | some group => exact ih _ _ (nodup_foldl_setAll _ _ h)

/-! ## Reading the traces of `Enable` and `Disable` -/

theorem warnedGroups_append (a b : List Event) :
    warnedGroups (a ++ b) = warnedGroups a ++ warnedGroups b := by
  simp [warnedGroups, List.filterMap_append]

theorem requests_append (a b : List Event) : requests (a ++ b) = requests a ++ requests b := by
  simp [requests, List.filterMap_append]

theorem warnedGroups_warnings (l : List Str) :
    warnedGroups (l.map (fun g => Event.Printf "Warning: Group '%s' not found\n" [FmtArg.str g]))
      = l := by
  induction l with
  | nil => rfl
  | cons g l ih =>
    simp only [warnedGroups, List.map_cons, List.filterMap_cons] at ih ⊢
    simp [Event.warnedGroup, ih]

theorem requests_warnings (l : List Str) :
    requests (l.map (fun g => Event.Printf "Warning: Group '%s' not found\n" [FmtArg.str g]))
      = [] := by
  induction l with
  | nil => rfl
  | cons g l ih =>
    simp only [requests, List.map_cons, List.filterMap_cons] at ih ⊢
    simp [Event.request, ih]

/-- An outcome whose trace is some events without warnings or requests, then the
warnings of the loop, then a tail without warnings, is a `BulkOutcome` as soon
as the tail issues the right request. -/
theorem bulkOutcome_of_shape (caseTable : Char → Char) (env : Env) (groups : ContainerGroups)
    (inventory : List Str) (groupNames : List Str) (verb : Str) (cs : NameSet)
    (pre post : List Event) (err : Option GoError)
    (hnd : cs.Nodup)
    (hmem : ∀ n, n ∈ cs ↔ inRequestedUnion caseTable groups inventory groupNames n)
    (hprew : warnedGroups pre = []) (hprer : requests pre = [])
    (hpostw : warnedGroups post = [])
    (hreq : requests post = [] ∨ ∃ composePath, requests post = [(composePath, verb :: cs)])
    (hrun : ∀ composePath, env.defaultComposePath = Except.ok composePath → cs ≠ [] →
      requests post = [(composePath, verb :: cs)] ∧
      (env.Run composePath (verb :: cs) = Except.ok () → err = none)) :
    BulkOutcome caseTable env groups inventory groupNames verb
      (pre ++ ((groupNames.filter (fun g => (groups.Groups.lookup g).isNone)).map
        (fun g => Event.Printf "Warning: Group '%s' not found\n" [FmtArg.str g]) ++ post),
        err) := by
  have hr : ∀ post', requests (pre ++ ((groupNames.filter
      (fun g => (groups.Groups.lookup g).isNone)).map
        (fun g => Event.Printf "Warning: Group '%s' not found\n" [FmtArg.str g]) ++ post'))
      = requests post' := by
    intro post'
    rw [requests_append, requests_append, requests_warnings, hprer, List.nil_append,
      List.nil_append]
  refine ⟨?_, cs, hnd, hmem, ?_, ?_⟩
  · show warnedGroups _ = _
    rw [warnedGroups_append, warnedGroups_append, warnedGroups_warnings, hprew, hpostw,
      List.nil_append, List.append_nil]
  · show requests _ = [] ∨ ∃ composePath, requests _ = _
    rw [hr]
    exact hreq
  · intro composePath hcp hne
    show requests _ = _ ∧ _
    rw [hr]
    exact hrun composePath hcp hne

theorem enable_outcome (caseTable : Char → Char) (env : Env) (groups : ContainerGroups)
    (allContainers : List Str) (groupNames : List Str) (hne : groupNames ≠ [])
    (hload : env.loadContainerGroups = Except.ok groups)
    (hinv : env.getAllContainers = Except.ok allContainers) :
    BulkOutcome caseTable env groups allContainers groupNames "start".toList
      (Enable caseTable env groupNames) := by
  have hlen : ¬ groupNames.length = 0 := by simpa using hne
  have hout := collectContainers_out caseTable groups allContainers groupNames
    ([Event.loadContainerGroups] ++ [Event.getAllContainers]) []
  have hmem := mem_collectContainers caseTable groups allContainers groupNames
    ([Event.loadContainerGroups] ++ [Event.getAllContainers]) []
  have hnd := nodup_collectContainers caseTable groups allContainers groupNames
    ([Event.loadContainerGroups] ++ [Event.getAllContainers]) [] List.nodup_nil
  unfold Enable
  simp only [hlen, if_false, hload, hinv]
  generalize collectContainers caseTable groups allContainers groupNames
    ([Event.loadContainerGroups] ++ [Event.getAllContainers]) [] = p at hout hmem hnd
  obtain ⟨out, cs⟩ := p
  simp only at hout hmem hnd
  subst hout
  have hmem2 : ∀ n, n ∈ cs ↔ inRequestedUnion caseTable groups allContainers groupNames n :=
    fun n => by simpa using hmem n
  have hcs : cs.length = 0 ↔ cs = [] := List.length_eq_zero
  simp only [NameSet.keys, List.append_assoc, List.singleton_append]
  by_cases hc : cs.length = 0
  · simp only [hc, if_true]
    refine bulkOutcome_of_shape caseTable env groups allContainers groupNames _ cs _ _ _
      hnd hmem2 rfl rfl rfl (Or.inl rfl) ?_
    intro composePath _ hne2
    exact absurd (hcs.mp hc) hne2
  · simp only [hc, if_false]
    cases hcp : env.defaultComposePath with
    | error e =>
      simp only []
      refine bulkOutcome_of_shape caseTable env groups allContainers groupNames _ cs _ _ _
        hnd hmem2 rfl rfl rfl (Or.inl rfl) ?_
      intro composePath hcp2 _
      rw [hcp] at hcp2
      cases hcp2
    | ok path =>
      simp only []
      cases hrun : env.Run path ("start".toList :: cs) with
      | error e =>
        simp only []
        refine bulkOutcome_of_shape caseTable env groups allContainers groupNames _ cs _ _ _
          hnd hmem2 rfl rfl rfl (Or.inr ⟨path, rfl⟩) ?_
        intro composePath hcp2 _
        rw [hcp] at hcp2
        cases hcp2
        refine ⟨rfl, fun h => ?_⟩
        rw [hrun] at h
        cases h
      | ok u =>
        simp only []
        refine bulkOutcome_of_shape caseTable env groups allContainers groupNames _ cs _ _ _
          hnd hmem2 rfl rfl rfl (Or.inr ⟨path, rfl⟩) ?_
        intro composePath hcp2 _
        rw [hcp] at hcp2
        cases hcp2
        exact ⟨rfl, fun _ => rfl⟩

theorem disable_outcome (caseTable : Char → Char) (env : Env) (groups : ContainerGroups)
    (runningContainers : List Str) (groupNames : List Str) (hne : groupNames ≠ [])
    (hload : env.loadContainerGroups = Except.ok groups)
    (hinv : env.getRunningContainers = Except.ok runningContainers) :
    BulkOutcome caseTable env groups runningContainers groupNames "stop".toList
      (Disable caseTable env groupNames) := by
  have hlen : ¬ groupNames.length = 0 := by simpa using hne
  have hout := collectContainers_out caseTable groups runningContainers groupNames
    ([Event.loadContainerGroups] ++ [Event.getRunningContainers]) []
  have hmem := mem_collectContainers caseTable groups runningContainers groupNames
    ([Event.loadContainerGroups] ++ [Event.getRunningContainers]) []
  have hnd := nodup_collectContainers caseTable groups runningContainers groupNames
    ([Event.loadContainerGroups] ++ [Event.getRunningContainers]) [] List.nodup_nil
  unfold Disable
  simp only [hlen, if_false, hload, hinv]
  generalize collectContainers caseTable groups runningContainers groupNames
    ([Event.loadContainerGroups] ++ [Event.getRunningContainers]) [] = p at hout hmem hnd
  obtain ⟨out, cs⟩ := p
  simp only at hout hmem hnd
  subst hout
  have hmem2 : ∀ n, n ∈ cs ↔ inRequestedUnion caseTable groups runningContainers groupNames n :=
    fun n => by simpa using hmem n
  have hcs : cs.length = 0 ↔ cs = [] := List.length_eq_zero
  simp only [NameSet.keys, List.append_assoc, List.singleton_append]
  by_cases hc : cs.length = 0
  · simp only [hc, if_true]
    refine bulkOutcome_of_shape caseTable env groups runningContainers groupNames _ cs _ _ _
      hnd hmem2 rfl rfl rfl (Or.inl rfl) ?_
    intro composePath _ hne2
    exact absurd (hcs.mp hc) hne2
  · simp only [hc, if_false]
    cases hcp : env.defaultComposePath with
    | error e =>
      simp only []
      refine bulkOutcome_of_shape caseTable env groups runningContainers groupNames _ cs _ _ _
        hnd hmem2 rfl rfl rfl (Or.inl rfl) ?_
      intro composePath hcp2 _
      rw [hcp] at hcp2
      cases hcp2
    | ok path =>
      simp only []
      cases hrun : env.Run path ("stop".toList :: cs) with
      | error e =>
        simp only []
        refine bulkOutcome_of_shape caseTable env groups runningContainers groupNames _ cs _ _ _
          hnd hmem2 rfl rfl rfl (Or.inr ⟨path, rfl⟩) ?_
        intro composePath hcp2 _
        rw [hcp] at hcp2
        cases hcp2
        refine ⟨rfl, fun h => ?_⟩
        rw [hrun] at h
        cases h
      | ok u =>
        simp only []
        refine bulkOutcome_of_shape caseTable env groups runningContainers groupNames _ cs _ _ _
          hnd hmem2 rfl rfl rfl (Or.inr ⟨path, rfl⟩) ?_
        intro composePath hcp2 _
        rw [hcp] at hcp2
        cases hcp2
        exact ⟨rfl, fun _ => rfl⟩

/-- With an empty set after the loop, `Enable` prints the "no containers" line
after the warnings and returns `nil`. -/
theorem enable_empty (caseTable : Char → Char) (env : Env) (groups : ContainerGroups)
    (allContainers : List Str) (groupNames : List Str) (hne : groupNames ≠ [])
    (hload : env.loadContainerGroups = Except.ok groups)
    (hinv : env.getAllContainers = Except.ok allContainers)
    (hempty : ∀ n, ¬ inRequestedUnion caseTable groups allContainers groupNames n) :
    Enable caseTable env groupNames =
      ([Event.loadContainerGroups, Event.getAllContainers] ++
        (groupNames.filter (fun g => (groups.Groups.lookup g).isNone)).map
          (fun g => Event.Printf "Warning: Group '%s' not found\n" [FmtArg.str g]) ++
        [Event.Println "No containers found matching the specified groups"], none) := by
  have hlen : ¬ groupNames.length = 0 := by simpa using hne
  have hout := collectContainers_out caseTable groups allContainers groupNames
    ([Event.loadContainerGroups] ++ [Event.getAllContainers]) []
  have hmem := mem_collectContainers caseTable groups allContainers groupNames
    ([Event.loadContainerGroups] ++ [Event.getAllContainers]) []
  unfold Enable
  simp only [hlen, if_false, hload, hinv]
  generalize collectContainers caseTable groups allContainers groupNames
    ([Event.loadContainerGroups] ++ [Event.getAllContainers]) [] = p at hout hmem
  obtain ⟨out, cs⟩ := p
  simp only at hout hmem
  subst hout
  have hcs : cs = [] := List.eq_nil_iff_forall_not_mem.mpr
    (fun n hn => hempty n (by simpa using (hmem n).mp hn))
  subst hcs
  rfl

/-- With an empty set after the loop, `Disable` prints the "no containers" line
after the warnings and returns `nil`. -/
theorem disable_empty (caseTable : Char → Char) (env : Env) (groups : ContainerGroups)
    (runningContainers : List Str) (groupNames : List Str) (hne : groupNames ≠ [])
    (hload : env.loadContainerGroups = Except.ok groups)
    (hinv : env.getRunningContainers = Except.ok runningContainers)
    (hempty : ∀ n, ¬ inRequestedUnion caseTable groups runningContainers groupNames n) :
    Disable caseTable env groupNames =
      ([Event.loadContainerGroups, Event.getRunningContainers] ++
        (groupNames.filter (fun g => (groups.Groups.lookup g).isNone)).map
          (fun g => Event.Printf "Warning: Group '%s' not found\n" [FmtArg.str g]) ++
        [Event.Println "No containers found matching the specified groups"], none) := by
  have hlen : ¬ groupNames.length = 0 := by simpa using hne
  have hout := collectContainers_out caseTable groups runningContainers groupNames
    ([Event.loadContainerGroups] ++ [Event.getRunningContainers]) []
  have hmem := mem_collectContainers caseTable groups runningContainers groupNames
    ([Event.loadContainerGroups] ++ [Event.getRunningContainers]) []
  unfold Disable
  simp only [hlen, if_false, hload, hinv]
  generalize collectContainers caseTable groups runningContainers groupNames
    ([Event.loadContainerGroups] ++ [Event.getRunningContainers]) [] = p at hout hmem
  obtain ⟨out, cs⟩ := p
  simp only at hout hmem
  subst hout
  have hcs : cs = [] := List.eq_nil_iff_forall_not_mem.mpr
    (fun n hn => hempty n (by simpa using (hmem n).mp hn))
  subst hcs
  rfl

theorem requests_no_containers (pre : List Event) (l : List Str) (hpre : requests pre = []) :
    requests (pre ++ l.map
      (fun g => Event.Printf "Warning: Group '%s' not found\n" [FmtArg.str g]) ++
      [Event.Println "No containers found matching the specified groups"]) = [] := by
  rw [requests_append, requests_append, requests_warnings, hpre]
  rfl

/-! ## `Enable` and `Disable` -/

/-- C8: called with a non-empty list of names and a loaded configuration, `Enable`
(on the all-services inventory, verb `start`) and `Disable` (on the
running-services inventory, verb `stop`) warn once for each requested name that is
not a key of the configuration and go on; the names passed to the bulk request
are, without repetition, exactly the union of `matchContainersForGroup` over the
requested names that are keys; at most one request is issued; and when that
union is not empty and the compose path resolves the request is issued and the
operation returns `nil` if the request succeeds. -/
theorem bulk_request_is_union (caseTable : Char → Char) (env : Env) (groups : ContainerGroups)
    (groupNames : List Str) (hne : groupNames ≠ [])
    (hload : env.loadContainerGroups = Except.ok groups) :
    (∀ allContainers, env.getAllContainers = Except.ok allContainers →
      BulkOutcome caseTable env groups allContainers groupNames "start".toList
        (Enable caseTable env groupNames)) ∧
    (∀ runningContainers, env.getRunningContainers = Except.ok runningContainers →
      BulkOutcome caseTable env groups runningContainers groupNames "stop".toList
        (Disable caseTable env groupNames)) :=
  ⟨fun allContainers hinv =>
      enable_outcome caseTable env groups allContainers groupNames hne hload hinv,
    fun runningContainers hinv =>
      disable_outcome caseTable env groups runningContainers groupNames hne hload hinv⟩

/-- C8 on the sample installation, with the unknown name `nope` and the group
`web`: `Enable` warns once, starts `web1` and `web2` in one request and returns
`nil`; and the general statement applies to it. -/
theorem bulk_request_is_union_witness :
    Enable id sampleEnv ["nope".toList, "web".toList] =
      ([Event.loadContainerGroups, Event.getAllContainers,
        Event.Printf "Warning: Group '%s' not found\n" [FmtArg.str "nope".toList],
        Event.Printf "Starting containers: %s\n" [FmtArg.str "web1, web2".toList],
        Event.defaultComposePath,
        Event.Run "docker-compose.yml".toList ["start".toList, "web1".toList, "web2".toList],
        Event.Printf "Successfully started %d containers from groups: %s\n"
          [FmtArg.int 2, FmtArg.str "nope, web".toList]], none) ∧
    BulkOutcome id sampleEnv sampleGroups ["web1".toList, "web2".toList, "redis".toList]
      ["nope".toList, "web".toList] "start".toList
      (Enable id sampleEnv ["nope".toList, "web".toList]) ∧
    BulkOutcome id sampleEnv sampleGroups ["web1".toList]
      ["nope".toList, "web".toList] "stop".toList
      (Disable id sampleEnv ["nope".toList, "web".toList]) :=
  ⟨by decide,
   (bulk_request_is_union id sampleEnv sampleGroups ["nope".toList, "web".toList]
      (by decide) rfl).1 _ rfl,
   (bulk_request_is_union id sampleEnv sampleGroups ["nope".toList, "web".toList]
      (by decide) rfl).2 _ rfl⟩

/-- C9: called with a non-empty list of names, a loaded configuration and a
fetched inventory, when the union of the resolved sets of the requested groups
is empty `Disable` and `Enable` print, after the warnings, that no containers
were found, issue no request to the orchestrator and return `nil`. -/
theorem no_containers_found (caseTable : Char → Char) (env : Env) (groups : ContainerGroups)
    (groupNames : List Str) (hne : groupNames ≠ [])
    (hload : env.loadContainerGroups = Except.ok groups) :
    (∀ runningContainers, env.getRunningContainers = Except.ok runningContainers →
      (∀ n, ¬ inRequestedUnion caseTable groups runningContainers groupNames n) →
      Disable caseTable env groupNames =
        ([Event.loadContainerGroups, Event.getRunningContainers] ++
          (groupNames.filter (fun g => (groups.Groups.lookup g).isNone)).map
            (fun g => Event.Printf "Warning: Group '%s' not found\n" [FmtArg.str g]) ++
          [Event.Println "No containers found matching the specified groups"], none) ∧
      requests (Disable caseTable env groupNames).1 = []) ∧
    (∀ allContainers, env.getAllContainers = Except.ok allContainers →
      (∀ n, ¬ inRequestedUnion caseTable groups allContainers groupNames n) →
      Enable caseTable env groupNames =
        ([Event.loadContainerGroups, Event.getAllContainers] ++
          (groupNames.filter (fun g => (groups.Groups.lookup g).isNone)).map
            (fun g => Event.Printf "Warning: Group '%s' not found\n" [FmtArg.str g]) ++
          [Event.Println "No containers found matching the specified groups"], none) ∧
      requests (Enable caseTable env groupNames).1 = []) := by
  refine ⟨fun runningContainers hinv hempty => ?_, fun allContainers hinv hempty => ?_⟩
  · have h := disable_empty caseTable env groups runningContainers groupNames hne hload hinv
      hempty
    refine ⟨h, ?_⟩
    rw [h]
    exact requests_no_containers _ _ rfl
  · have h := enable_empty caseTable env groups allContainers groupNames hne hload hinv hempty
    refine ⟨h, ?_⟩
    rw [h]
    exact requests_no_containers _ _ rfl

/-- C9 on the sample installation: the only requested name is unknown. -/
theorem no_containers_found_witness :
    Disable id sampleEnv ["nope".toList] =
      ([Event.loadContainerGroups, Event.getRunningContainers,
        Event.Printf "Warning: Group '%s' not found\n" [FmtArg.str "nope".toList],
        Event.Println "No containers found matching the specified groups"], none) ∧
    requests (Disable id sampleEnv ["nope".toList]).1 = [] :=
  (no_containers_found id sampleEnv sampleGroups ["nope".toList] (by decide) rfl).1
    ["web1".toList] rfl
    (by
      rintro n ⟨g, hg, group, hl, -⟩
      simp only [List.mem_singleton] at hg
      subst hg
      exact absurd hl (by simp [sampleGroups, List.lookup]))

/-- C10: with an empty list of names `Enable` and `Disable` return the usage error
"no groups specified" with an empty trace (nothing loaded, no inventory queried,
no request issued); with a non-empty list they never return that error. -/
theorem usage_error_fail_fast (caseTable : Char → Char) (env : Env) :
    Enable caseTable env [] = ([], some usageError) ∧
    Disable caseTable env [] = ([], some usageError) ∧
    ∀ groupNames, groupNames ≠ [] →
      (Enable caseTable env groupNames).2 ≠ some usageError ∧
      (Disable caseTable env groupNames).2 ≠ some usageError := by
  refine ⟨rfl, rfl, fun groupNames hne => ?_⟩
  have hlen : ¬ groupNames.length = 0 := by simpa using hne
  constructor
  · unfold Enable
    simp only [hlen, if_false]
    repeat' split
    all_goals simp [usageError]
  · unfold Disable
    simp only [hlen, if_false]
    repeat' split
    all_goals simp [usageError]

/-- C10 on the sample installation with the one name `web`. -/
theorem usage_error_fail_fast_witness :
    (Enable id sampleEnv ["web".toList]).2 ≠ some usageError ∧
    (Disable id sampleEnv ["web".toList]).2 ≠ some usageError :=
  (usage_error_fail_fast id sampleEnv).2.2 ["web".toList] (by decide)

end Merry
